import Mathlib

/-!
# Fastify-Todo: verified model of the CRUD core

Shallow embedding of the in-memory Todo CRUD core:

* `TodoRepository` (src: `todo.repository.ts`, UUID/timestamp variant):
  an in-memory array of `Todo` records with `findAll` / `findById` /
  `create` / `update` / `delete`.
* `TodoService` (src: `todo.service.ts`): validation ("title must not be
  blank after trimming", existence checks) in front of the repository,
  turning sentinel results into typed errors (`NotFoundError`,
  `ValidationError`).
* zod schemas (src: `todo.schema.ts`): length bounds on the `title`
  field, attached to the routes (src: `todo.routes.ts`).
* the integer-id route variant (second source file): a module-level
  `todos` array with a `PUT /todos/:id` handler.

Modelling conventions:

* JS strings are modelled as their sequences of code points, `List Char`;
  `String.prototype.trim` becomes `jsTrim` (drop leading and trailing
  whitespace), with `Char.isWhitespace` standing for the JS whitespace
  class.
* Timestamps (`new Date().toISOString()`) are modelled as `Nat` clock
  readings; the ISO-8601 string order of the source corresponds to the
  numeric order of the model. The current time is passed to each
  operation as an explicit `now` argument.
* `randomUUID()` is modelled as an explicit `newId` argument; freshness
  of the generated id (the generator's uniqueness guarantee) appears as
  a hypothesis where a theorem needs it.
* Mutation of `this.todos` is modelled by state passing: every mutating
  operation returns its result paired with the post-state of the store.
  A thrown service error leaves the store exactly as it was, matching
  the source, where the throw happens before any mutation.
* Object aliasing (the fact that `findAll`/`findById` hand out
  references to the stored record objects) is modelled separately and
  explicitly in `RepoMem`, a heap-with-addresses refinement of the
  repository used for the defensive-copy claim.
-/

/-- Model of the JS whitespace class used by `String.prototype.trim`. -/
def isJsWhitespace (c : Char) : Bool :=
  c.isWhitespace

/-- Drop leading whitespace (the left half of `trim`). -/
def trimLeft (s : List Char) : List Char :=
  s.dropWhile isJsWhitespace

/-- Drop trailing whitespace (the right half of `trim`). -/
def trimRight (s : List Char) : List Char :=
  (s.reverse.dropWhile isJsWhitespace).reverse

/-- Model of JS `String.prototype.trim`: drop leading and trailing
whitespace from the code-point sequence. -/
def jsTrim (s : List Char) : List Char :=
  trimRight (trimLeft s)

/-- The `Todo` entity of `todo.schema.ts`:
`{ id: string; title: string; completed: boolean; createdAt: string;
updatedAt: string }` (timestamps modelled as `Nat`). -/
structure Todo where
  id : List Char
  title : List Char
  completed : Bool
  createdAt : Nat
  updatedAt : Nat
deriving DecidableEq

/-- The `CreateTodoDto` of `todo.schema.ts`: `{ title: string }`. -/
structure CreateTodoDto where
  title : List Char
deriving DecidableEq

/-- The `UpdateTodoDto` of `todo.schema.ts`:
`{ title?: string; completed?: boolean }`; an absent optional field is
`none`. -/
structure UpdateTodoDto where
  title : Option (List Char)
  completed : Option Bool
deriving DecidableEq

namespace TodoRepository

/-- `findAll`: `return [...this.todos]` — the whole store in insertion
order (the array copy is invisible at this value level; see `RepoMem`
for the reference-level model). -/
def findAll (todos : List Todo) : List Todo :=
  todos

/-- `findById`: `this.todos.find((t) => t.id === id) ?? null`. -/
def findById (todos : List Todo) (id : List Char) : Option Todo :=
  todos.find? (fun t => t.id == id)

/-- `create`: build a record with a fresh id, `completed: false` and both
timestamps set to `now`, push it onto the store, and return it. -/
def create (todos : List Todo) (newId : List Char) (now : Nat)
    (data : CreateTodoDto) : Todo × List Todo :=
  let todo : Todo :=
    { id := newId, title := data.title, completed := false,
      createdAt := now, updatedAt := now }
  (todo, todos ++ [todo])

/-- `update`: `findIndex` the first record with the given id; if none,
return the not-found sentinel and leave the store alone; otherwise
replace that record by the spread-merge of the old record with the
fields present in `data`, refreshing `updatedAt`, and return it. -/
def update (todos : List Todo) (id : List Char) (data : UpdateTodoDto)
    (now : Nat) : Option Todo × List Todo :=
  match todos with
  | [] => (none, [])
  | t :: ts =>
    if t.id == id then
      let merged : Todo :=
        { t with
          title := data.title.getD t.title,
          completed := data.completed.getD t.completed,
          updatedAt := now }
      (some merged, merged :: ts)
    else
      let r := update ts id data now
      (r.1, t :: r.2)

/-- `delete`: `findIndex` the first record with the given id; if none,
return `false` and leave the store alone; otherwise `splice` it out and
return `true`. -/
def del (todos : List Todo) (id : List Char) : Bool × List Todo :=
  match todos with
  | [] => (false, [])
  | t :: ts =>
    if t.id == id then
      (true, ts)
    else
      let r := del ts id
      (r.1, t :: r.2)

end TodoRepository

/-- The typed domain errors of `errors.ts`: `NotFoundError` (404) and
`ValidationError` (400). -/
inductive ServiceError where
  | notFound : ServiceError
  | validation : ServiceError
deriving DecidableEq

namespace TodoService

/-- `getAllTodos`: passthrough to `findAll`. -/
def getAllTodos (todos : List Todo) : List Todo :=
  TodoRepository.findAll todos

/-- `getTodoById`: `findById`, throwing `NotFoundError` on the `null`
sentinel. -/
def getTodoById (todos : List Todo) (id : List Char) :
    Except ServiceError Todo :=
  match TodoRepository.findById todos id with
  | none => Except.error ServiceError.notFound
  | some t => Except.ok t

/-- `createTodo`: throw `ValidationError` when the title trims to the
empty string, otherwise delegate to `create` with the trimmed title.
The result is paired with the post-state of the store. -/
def createTodo (todos : List Todo) (newId : List Char) (now : Nat)
    (data : CreateTodoDto) : Except ServiceError Todo × List Todo :=
  if (jsTrim data.title).length == 0 then
    (Except.error ServiceError.validation, todos)
  else
    let r := TodoRepository.create todos newId now { title := jsTrim data.title }
    (Except.ok r.1, r.2)

/-- `updateTodo`: existence check first (`findById`, throwing
`NotFoundError`), then the blank-title check on a provided title
(throwing `ValidationError`), then delegate to `update` with the
trimmed title (when present) and the given `completed` (when present);
a `null` from `update` is also turned into `NotFoundError`. -/
def updateTodo (todos : List Todo) (id : List Char) (data : UpdateTodoDto)
    (now : Nat) : Except ServiceError Todo × List Todo :=
  match TodoRepository.findById todos id with
  | none => (Except.error ServiceError.notFound, todos)
  | some _ =>
    if (match data.title with
        | some t => (jsTrim t).length == 0
        | none => false) then
      (Except.error ServiceError.validation, todos)
    else
      let updateData : UpdateTodoDto :=
        { title := data.title.map jsTrim, completed := data.completed }
      let r := TodoRepository.update todos id updateData now
      match r.1 with
      | none => (Except.error ServiceError.notFound, r.2)
      | some t => (Except.ok t, r.2)

/-- `deleteTodo`: delegate to repository `delete`; a `false` result
becomes `NotFoundError`, a `true` result completes with no value. -/
def deleteTodo (todos : List Todo) (id : List Char) :
    Except ServiceError Unit × List Todo :=
  let r := TodoRepository.del todos id
  if r.1 then (Except.ok (), r.2)
  else (Except.error ServiceError.notFound, r.2)

end TodoService

/-- The `title` constraint of `createTodoSchema` in `todo.schema.ts`:
`z.string().min(1).max(200)`. The routes attach this schema to the
`POST /api/todos` body, so every title reaching `createTodo` through
that route satisfies it. -/
def createTodoSchemaOk (title : List Char) : Prop :=
  1 ≤ title.length ∧ title.length ≤ 200

/-- The body constraint of `updateTodoSchema` in `todo.schema.ts`:
`title` is optional but, when present, `z.string().min(1).max(200)`.
The routes attach this schema to the `PATCH /api/todos/:id` body. -/
def updateTodoSchemaOk (data : UpdateTodoDto) : Prop :=
  ∀ s, data.title = some s → 1 ≤ s.length ∧ s.length ≤ 200

/-- Store invariant: no stored title is empty or whitespace-only. -/
def TitlesNonBlank (todos : List Todo) : Prop :=
  ∀ t ∈ todos, jsTrim t.title ≠ []

/-- Store invariant: every stored title has at most 200 characters. -/
def TitlesAtMost200 (todos : List Todo) : Prop :=
  ∀ t ∈ todos, t.title.length ≤ 200

/-- The stores reachable from the empty store by service calls with
arbitrary inputs (any id, any time, any dto). -/
inductive Reachable : List Todo → Prop where
  | empty : Reachable []
  | create (s : List Todo) (newId : List Char) (now : Nat)
      (data : CreateTodoDto) : Reachable s →
      Reachable (TodoService.createTodo s newId now data).2
  | update (s : List Todo) (id : List Char) (data : UpdateTodoDto)
      (now : Nat) : Reachable s →
      Reachable (TodoService.updateTodo s id data now).2
  | del (s : List Todo) (id : List Char) : Reachable s →
      Reachable (TodoService.deleteTodo s id).2

/-- The stores reachable from the empty store by service calls whose
bodies passed the zod schemas attached to the routes. -/
inductive SchemaReachable : List Todo → Prop where
  | empty : SchemaReachable []
  | create (s : List Todo) (newId : List Char) (now : Nat)
      (data : CreateTodoDto) : createTodoSchemaOk data.title →
      SchemaReachable s →
      SchemaReachable (TodoService.createTodo s newId now data).2
  | update (s : List Todo) (id : List Char) (data : UpdateTodoDto)
      (now : Nat) : updateTodoSchemaOk data → SchemaReachable s →
      SchemaReachable (TodoService.updateTodo s id data now).2
  | del (s : List Todo) (id : List Char) : SchemaReachable s →
      SchemaReachable (TodoService.deleteTodo s id).2

/-- A heap address in the reference-level repository model. -/
abbrev Addr := Nat

/-- Reference-level model of `TodoRepository`: the record objects live
in a heap (`heap`, addressed by index) and `this.todos` is an array of
references into that heap (`refs`). This makes the JS distinction
between copying an array and copying its elements expressible. -/
structure RepoMem where
  heap : List Todo
  refs : List Addr
deriving DecidableEq

namespace RepoMem

/-- `findAll` at the reference level: `[...this.todos]` builds a fresh
array holding the same references — the caller receives the stored
addresses themselves, not copies of the records. -/
def findAllRefs (r : RepoMem) : List Addr :=
  r.refs

/-- `findById` at the reference level:
`this.todos.find((t) => t.id === id) ?? null` returns the stored
reference itself (or the `null` sentinel). -/
def findByIdRef (r : RepoMem) (id : List Char) : Option Addr :=
  r.refs.find? fun a =>
    match r.heap[a]? with
    | some o => o.id == id
    | none => false

/-- A caller mutating a record it was handed: `todo.title = s` through
a reference obtained from a read operation. -/
def setTitle (r : RepoMem) (a : Addr) (s : List Char) : RepoMem :=
  match r.heap[a]? with
  | none => r
  | some o => { r with heap := r.heap.set a { o with title := s } }

/-- The repository's stored collection as observable through its own
references (what a later `findAll` dereferences to). -/
def stored (r : RepoMem) : List (Option Todo) :=
  r.refs.map fun a => r.heap[a]?

end RepoMem

/-- A concrete one-record reference-level store. -/
def repoMem0 : RepoMem :=
  { heap := [{ id := ['i'], title := ['t'], completed := false,
               createdAt := 0, updatedAt := 0 }],
    refs := [0] }

/-- The `Todo` of the integer-id route variant:
`{ id: number; title: string; completed: boolean }`. -/
structure IntTodo where
  id : Int
  title : List Char
  completed : Bool
deriving DecidableEq

/-- A request body a client may send to `PUT /todos/:id`; the handler
never reads it. -/
structure PutBody where
  title : Option (List Char)
  completed : Option Bool
deriving DecidableEq

/-- Outcome of the `PUT /todos/:id` handler: 400 for a non-integer id,
404 when no todo matches, 200 with the todo otherwise. -/
inductive PutResult where
  | invalidId : PutResult
  | notFound : PutResult
  | ok : IntTodo → PutResult
deriving DecidableEq

/-- `todos.find((t) => t.id === todoId)` followed by
`todo.completed = true`: since `find` returns a reference into the
array, the in-place assignment rewrites the first matching element. -/
def setCompletedTrue (todos : List IntTodo) (tid : Int) :
    Option IntTodo × List IntTodo :=
  match todos with
  | [] => (none, [])
  | t :: ts =>
    if t.id == tid then
      let t' := { t with completed := true }
      (some t', t' :: ts)
    else
      let r := setCompletedTrue ts tid
      (r.1, t :: r.2)

/-- The `PUT /todos/:id` handler of the integer-id route variant.
`idParam` is the outcome of `Number(request.params.id)` guarded by
`Number.isInteger` (`none` models a parameter that fails that check).
The handler takes the request body but never touches it. -/
def putTodoHandler (todos : List IntTodo) (idParam : Option Int)
    (body : PutBody) : PutResult × List IntTodo :=
  match idParam with
  | none => (PutResult.invalidId, todos)
  | some tid =>
    match setCompletedTrue todos tid with
    | (none, _) => (PutResult.notFound, todos)
    | (some t, ts) => (PutResult.ok t, ts)

/-- A concrete record of the integer-id variant. -/
def intTodoA : IntTodo :=
  { id := 1, title := ['x'], completed := false }

/-- A second concrete record of the integer-id variant. -/
def intTodoB : IntTodo :=
  { id := 2, title := ['y'], completed := false }

/-- A concrete stored record used to instantiate theorems. -/
def todoA : Todo :=
  { id := ['a'], title := ['x'], completed := false, createdAt := 0, updatedAt := 0 }

/-- A second concrete stored record used to instantiate theorems. -/
def todoB : Todo :=
  { id := ['b'], title := ['y'], completed := true, createdAt := 1, updatedAt := 2 }

/- ### Theorems -/

/-- `dropWhile` is idempotent. -/
theorem dropWhile_idem {α : Type} (p : α → Bool) (l : List α) :
    (l.dropWhile p).dropWhile p = l.dropWhile p := by
  induction l with
  | nil => rfl
  | cons a l ih =>
    by_cases h : p a = true
    · simp [List.dropWhile_cons, h, ih]
    · simp [List.dropWhile_cons, h]

/-- C1: a create whose title is non-empty after trimming succeeds; the
new record carries the trimmed title, `completed = false`, both
timestamps equal to the creation time, and is appended at the end of
the store, so it is the last element of a subsequent `findAll`. -/
theorem createTodo_ok (todos : List Todo) (newId : List Char) (now : Nat)
    (data : CreateTodoDto) (h : jsTrim data.title ≠ []) :
    ∃ t : Todo,
      TodoService.createTodo todos newId now data = (Except.ok t, todos ++ [t]) ∧
      t.id = newId ∧
      t.title = jsTrim data.title ∧
      t.completed = false ∧
      t.createdAt = now ∧
      t.updatedAt = now ∧
      (TodoRepository.findAll (todos ++ [t])).getLast? = some t := by
  refine ⟨{ id := newId, title := jsTrim data.title, completed := false,
            createdAt := now, updatedAt := now }, ?_, rfl, rfl, rfl, rfl, rfl, ?_⟩
  · have hlen : ((jsTrim data.title).length == 0) = false := by
      simp [List.length_eq_zero, h]
    simp [TodoService.createTodo, TodoRepository.create, hlen]
  · exact List.getLast?_concat todos

/-- C1 witness. -/
theorem createTodo_ok_witness :
    jsTrim ([' ', 'h', 'i', ' '] : List Char) ≠ [] ∧
    (∃ t : Todo,
      TodoService.createTodo [] ['a'] 7 ⟨[' ', 'h', 'i', ' ']⟩ =
        (Except.ok t, [] ++ [t]) ∧
      t.id = ['a'] ∧
      t.title = jsTrim [' ', 'h', 'i', ' '] ∧
      t.completed = false ∧
      t.createdAt = 7 ∧
      t.updatedAt = 7 ∧
      (TodoRepository.findAll ([] ++ [t])).getLast? = some t) :=
  ⟨by decide, createTodo_ok [] ['a'] 7 ⟨[' ', 'h', 'i', ' ']⟩ (by decide)⟩

/-- C2: a create whose title trims to the empty string fails with
`ValidationError` and leaves the store exactly as it was. -/
theorem createTodo_blank_title (todos : List Todo) (newId : List Char)
    (now : Nat) (data : CreateTodoDto) (h : jsTrim data.title = []) :
    TodoService.createTodo todos newId now data =
      (Except.error ServiceError.validation, todos) := by
  simp [TodoService.createTodo, h]

/-- C2 witness. -/
theorem createTodo_blank_title_witness :
    jsTrim ([' ', ' '] : List Char) = [] ∧
    TodoService.createTodo [] ['a'] 7 ⟨[' ', ' ']⟩ =
      (Except.error ServiceError.validation, []) :=
  ⟨by decide, createTodo_blank_title [] ['a'] 7 ⟨[' ', ' ']⟩ (by decide)⟩

/-- `findById` misses when no stored record has the id. -/
theorem findById_eq_none (todos : List Todo) (id : List Char)
    (h : ∀ t ∈ todos, t.id ≠ id) :
    TodoRepository.findById todos id = none := by
  induction todos with
  | nil => rfl
  | cons a l ih =>
    have ha : (a.id == id) = false :=
      beq_eq_false_iff_ne.mpr (h a (List.mem_cons_self a l))
    calc TodoRepository.findById (a :: l) id
        = TodoRepository.findById l id := by
          simp [TodoRepository.findById, List.find?_cons, ha]
      _ = none := ih fun t ht => h t (List.mem_cons_of_mem a ht)

/-- `findById` returns the first matching record. -/
theorem findById_append_first (l₁ l₂ : List Todo) (old : Todo) (id : List Char)
    (hfst : ∀ t ∈ l₁, t.id ≠ id) (hid : old.id = id) :
    TodoRepository.findById (l₁ ++ old :: l₂) id = some old := by
  induction l₁ with
  | nil =>
    simp [TodoRepository.findById, List.find?_cons, hid]
  | cons a l ih =>
    have ha : (a.id == id) = false :=
      beq_eq_false_iff_ne.mpr (hfst a (List.mem_cons_self a l))
    calc TodoRepository.findById ((a :: l) ++ old :: l₂) id
        = TodoRepository.findById (l ++ old :: l₂) id := by
          simp [TodoRepository.findById, List.find?_cons, ha]
      _ = some old := ih fun t ht => hfst t (List.mem_cons_of_mem a ht)

/-- Repository `update` rewrites exactly the first matching record by the
spread-merge of the fields present in `data`. -/
theorem update_append_first (l₁ l₂ : List Todo) (old : Todo) (id : List Char)
    (data : UpdateTodoDto) (now : Nat)
    (hfst : ∀ t ∈ l₁, t.id ≠ id) (hid : old.id = id) :
    TodoRepository.update (l₁ ++ old :: l₂) id data now =
      (some { old with
                title := data.title.getD old.title,
                completed := data.completed.getD old.completed,
                updatedAt := now },
       l₁ ++ { old with
                title := data.title.getD old.title,
                completed := data.completed.getD old.completed,
                updatedAt := now } :: l₂) := by
  induction l₁ with
  | nil =>
    simp [TodoRepository.update, hid]
  | cons a l ih =>
    have ha : (a.id == id) = false :=
      beq_eq_false_iff_ne.mpr (hfst a (List.mem_cons_self a l))
    have ih' := ih fun t ht => hfst t (List.mem_cons_of_mem a ht)
    simp [TodoRepository.update, ha, ih']

/-- Repository `delete` reports `false` and keeps the store when no
record matches. -/
theorem del_eq_false (todos : List Todo) (id : List Char)
    (h : ∀ t ∈ todos, t.id ≠ id) :
    TodoRepository.del todos id = (false, todos) := by
  induction todos with
  | nil => rfl
  | cons a l ih =>
    have ha : (a.id == id) = false :=
      beq_eq_false_iff_ne.mpr (h a (List.mem_cons_self a l))
    have ih' := ih fun t ht => h t (List.mem_cons_of_mem a ht)
    simp [TodoRepository.del, ha, ih']

/-- Repository `delete` splices out exactly the first matching record. -/
theorem del_append_first (l₁ l₂ : List Todo) (old : Todo) (id : List Char)
    (hfst : ∀ t ∈ l₁, t.id ≠ id) (hid : old.id = id) :
    TodoRepository.del (l₁ ++ old :: l₂) id = (true, l₁ ++ l₂) := by
  induction l₁ with
  | nil =>
    simp [TodoRepository.del, hid]
  | cons a l ih =>
    have ha : (a.id == id) = false :=
      beq_eq_false_iff_ne.mpr (hfst a (List.mem_cons_self a l))
    have ih' := ih fun t ht => hfst t (List.mem_cons_of_mem a ht)
    simp [TodoRepository.del, ha, ih']

/-- C3: `updateTodo` fails with `NotFoundError` whenever the id is
absent (regardless of the provided title, since the existence check
runs first), fails with `ValidationError` whenever the id is present
but a provided title trims to empty, and in both failure cases the
store is returned unchanged. -/
theorem updateTodo_failure_cases (todos : List Todo) (id : List Char)
    (data : UpdateTodoDto) (now : Nat) :
    (TodoRepository.findById todos id = none →
      TodoService.updateTodo todos id data now =
        (Except.error ServiceError.notFound, todos)) ∧
    (∀ s, TodoRepository.findById todos id ≠ none → data.title = some s →
      jsTrim s = [] →
      TodoService.updateTodo todos id data now =
        (Except.error ServiceError.validation, todos)) := by
  constructor
  · intro h
    simp [TodoService.updateTodo, h]
  · intro s hne ht htrim
    obtain ⟨u, hu⟩ := Option.ne_none_iff_exists.mp hne
    simp [TodoService.updateTodo, ← hu, ht, htrim]

/-- C3 witness: a missing id gives `NotFoundError` even with a blank
title; an existing id with a blank title gives `ValidationError`; the
store is unchanged both times. -/
theorem updateTodo_failure_cases_witness :
    TodoService.updateTodo [todoA] ['z'] ⟨some [' '], none⟩ 5 =
      (Except.error ServiceError.notFound, [todoA]) ∧
    TodoService.updateTodo [todoA] ['a'] ⟨some [' '], some true⟩ 5 =
      (Except.error ServiceError.validation, [todoA]) := by
  constructor
  · exact (updateTodo_failure_cases [todoA] ['z'] ⟨some [' '], none⟩ 5).1 (by decide)
  · exact (updateTodo_failure_cases [todoA] ['a'] ⟨some [' '], some true⟩ 5).2
      [' '] (by decide) rfl (by decide)

/-- C4: a successful `updateTodo` on the first record holding the id
merges exactly the fields present in the partial data: an absent field
keeps its prior value, `id` and `createdAt` are unchanged, `updatedAt`
is set to the current time (hence not below its prior value under a
monotone clock), the merged record is returned, and every other stored
record is untouched. The empty partial `⟨none, none⟩` is the special
case in which `title` and `completed` both keep their prior values. -/
theorem updateTodo_merge (l₁ l₂ : List Todo) (old : Todo)
    (data : UpdateTodoDto) (now : Nat)
    (hfst : ∀ t ∈ l₁, t.id ≠ old.id)
    (hval : ∀ s, data.title = some s → jsTrim s ≠ []) :
    ∃ t' : Todo,
      TodoService.updateTodo (l₁ ++ old :: l₂) old.id data now =
        (Except.ok t', l₁ ++ t' :: l₂) ∧
      t'.id = old.id ∧
      t'.createdAt = old.createdAt ∧
      t'.title = (data.title.map jsTrim).getD old.title ∧
      t'.completed = data.completed.getD old.completed ∧
      t'.updatedAt = now ∧
      (old.updatedAt ≤ now → old.updatedAt ≤ t'.updatedAt) := by
  have hfind : TodoRepository.findById (l₁ ++ old :: l₂) old.id = some old :=
    findById_append_first l₁ l₂ old old.id hfst rfl
  have hupd :=
    update_append_first l₁ l₂ old old.id
      { title := data.title.map jsTrim, completed := data.completed } now hfst rfl
  have hcond :
      (match data.title with
       | some t => (jsTrim t).length == 0
       | none => false) = false := by
    cases ht : data.title with
    | none => rfl
    | some s =>
      simp [List.length_eq_zero, hval s ht]
  refine ⟨{ old with
              title := (data.title.map jsTrim).getD old.title,
              completed := data.completed.getD old.completed,
              updatedAt := now }, ?_, rfl, rfl, rfl, rfl, rfl, fun h => h⟩
  simp only [TodoService.updateTodo, hfind, hcond, Bool.false_eq_true,
    if_false, hupd]

/-- C4 witness: the empty partial update on a stored record keeps
`title` and `completed` and refreshes `updatedAt`. -/
theorem updateTodo_merge_witness :
    (∀ t ∈ [todoB], t.id ≠ todoA.id) ∧
    (∃ t' : Todo,
      TodoService.updateTodo [todoB, todoA] todoA.id ⟨none, none⟩ 5 =
        (Except.ok t', [todoB, t']) ∧
      t'.id = todoA.id ∧
      t'.createdAt = todoA.createdAt ∧
      t'.title = todoA.title ∧
      t'.completed = todoA.completed ∧
      t'.updatedAt = 5 ∧
      (todoA.updatedAt ≤ 5 → todoA.updatedAt ≤ t'.updatedAt)) :=
  ⟨by decide,
   updateTodo_merge [todoB] [] todoA ⟨none, none⟩ 5 (by decide)
     (fun s h => nomatch h)⟩

/-- C5: `deleteTodo` fails with `NotFoundError` (store unchanged)
exactly when no stored record has the id; when the first occurrence of
the id is at some position, it removes exactly that record — the other
records are untouched and the length drops by one — and, when that
occurrence is the only one, the id is gone from a subsequent `findAll`
and a second delete of the same id fails with `NotFoundError`. -/
theorem deleteTodo_spec (todos : List Todo) (id : List Char) :
    ((∀ t ∈ todos, t.id ≠ id) →
      TodoService.deleteTodo todos id =
        (Except.error ServiceError.notFound, todos)) ∧
    (∀ l₁ old l₂, todos = l₁ ++ old :: l₂ →
      (∀ t ∈ l₁, t.id ≠ id) → old.id = id →
      TodoService.deleteTodo todos id = (Except.ok (), l₁ ++ l₂) ∧
      (l₁ ++ l₂).length + 1 = todos.length ∧
      ((∀ t ∈ l₂, t.id ≠ id) →
        (∀ t ∈ TodoRepository.findAll (l₁ ++ l₂), t.id ≠ id) ∧
        TodoService.deleteTodo (l₁ ++ l₂) id =
          (Except.error ServiceError.notFound, l₁ ++ l₂))) := by
  constructor
  · intro h
    simp [TodoService.deleteTodo, del_eq_false todos id h]
  · intro l₁ old l₂ hdec h₁ hid
    subst hdec
    have hdel := del_append_first l₁ l₂ old id h₁ hid
    refine ⟨by simp [TodoService.deleteTodo, hdel], by simp; omega, ?_⟩
    intro h₂
    have hall : ∀ t ∈ l₁ ++ l₂, t.id ≠ id := by
      intro t ht
      rcases List.mem_append.mp ht with h | h
      · exact h₁ t h
      · exact h₂ t h
    exact ⟨hall,
      by simp [TodoService.deleteTodo, del_eq_false (l₁ ++ l₂) id hall]⟩

/-- C5 witness: deleting a missing id fails and keeps the store;
deleting an existing id removes exactly that record, and deleting it
again fails. -/
theorem deleteTodo_spec_witness :
    TodoService.deleteTodo [todoA] ['z'] =
      (Except.error ServiceError.notFound, [todoA]) ∧
    TodoService.deleteTodo [todoB, todoA] todoA.id = (Except.ok (), [todoB]) ∧
    TodoService.deleteTodo [todoB] todoA.id =
      (Except.error ServiceError.notFound, [todoB]) := by
  refine ⟨(deleteTodo_spec [todoA] ['z']).1 (by decide), ?_⟩
  have h := (deleteTodo_spec [todoB, todoA] todoA.id).2 [todoB] todoA []
    rfl (by decide) rfl
  exact ⟨h.1, (h.2.2 (by decide)).2⟩

/-- `dropWhile` never lengthens a list. -/
theorem length_dropWhile_le' {α : Type} (p : α → Bool) (l : List α) :
    (l.dropWhile p).length ≤ l.length := by
  induction l with
  | nil => exact Nat.le_refl 0
  | cons a l ih =>
    by_cases h : p a = true
    · simp only [List.dropWhile_cons, h, if_true]
      exact Nat.le_trans ih (Nat.le_succ _)
    · simp [List.dropWhile_cons, h]

/-- `dropWhile` removes a prefix. -/
theorem dropWhile_is_suffix {α : Type} (p : α → Bool) (l : List α) :
    ∃ pre, pre ++ l.dropWhile p = l := by
  induction l with
  | nil => exact ⟨[], rfl⟩
  | cons a l ih =>
    by_cases h : p a = true
    · obtain ⟨pre, hp⟩ := ih
      exact ⟨a :: pre, by simp [List.dropWhile_cons, h, hp]⟩
    · exact ⟨[], by simp [List.dropWhile_cons, h]⟩

/-- `trimRight` keeps a prefix of its argument. -/
theorem trimRight_initial (u : List Char) :
    ∃ suf, trimRight u ++ suf = u := by
  obtain ⟨pre, hp⟩ := dropWhile_is_suffix isJsWhitespace u.reverse
  refine ⟨pre.reverse, ?_⟩
  have := congrArg List.reverse hp
  simpa [trimRight] using this

/-- A list unchanged by `trimLeft` does not start with whitespace. -/
theorem head_not_space_of_trimLeft_eq (u : List Char) (c : Char)
    (r : List Char) (h : trimLeft u = u) (he : u = c :: r) :
    isJsWhitespace c = false := by
  by_contra hc
  have hc' : isJsWhitespace c = true := by
    cases hw : isJsWhitespace c
    · exact absurd hw hc
    · rfl
  have h1 : trimLeft u = r.dropWhile isJsWhitespace := by
    simp [trimLeft, he, List.dropWhile_cons, hc']
  have h2 : (r.dropWhile isJsWhitespace).length ≤ r.length :=
    length_dropWhile_le' isJsWhitespace r
  have h3 : u.length = r.length + 1 := by simp [he]
  have h4 : u.length ≤ r.length := by
    calc u.length = (trimLeft u).length := by rw [h]
      _ = (r.dropWhile isJsWhitespace).length := by rw [h1]
      _ ≤ r.length := h2
  omega

/-- `trimRight` preserves the property of having no leading
whitespace. -/
theorem trimLeft_trimRight (u : List Char) (h : trimLeft u = u) :
    trimLeft (trimRight u) = trimRight u := by
  cases e : trimRight u with
  | nil => rfl
  | cons c r =>
    obtain ⟨suf, hs⟩ := trimRight_initial u
    rw [e] at hs
    have hu : u = c :: (r ++ suf) := by
      rw [← hs]; simp
    have hc : isJsWhitespace c = false :=
      head_not_space_of_trimLeft_eq u c (r ++ suf) h hu
    simp [trimLeft, List.dropWhile_cons, hc]

/-- `trimRight` is idempotent. -/
theorem trimRight_idem (u : List Char) :
    trimRight (trimRight u) = trimRight u := by
  simp [trimRight, dropWhile_idem]

/-- `jsTrim` is idempotent: trimming an already-trimmed string changes
nothing. -/
theorem jsTrim_idem (s : List Char) : jsTrim (jsTrim s) = jsTrim s := by
  have hu : trimLeft (trimLeft s) = trimLeft s :=
    dropWhile_idem isJsWhitespace s
  calc jsTrim (jsTrim s)
      = trimRight (trimLeft (trimRight (trimLeft s))) := rfl
    _ = trimRight (trimRight (trimLeft s)) := by
        rw [trimLeft_trimRight (trimLeft s) hu]
    _ = trimRight (trimLeft s) := trimRight_idem (trimLeft s)

/-- `jsTrim` never lengthens a string. -/
theorem jsTrim_length_le (s : List Char) :
    (jsTrim s).length ≤ s.length := by
  have h1 : (jsTrim s).length ≤ (trimLeft s).length := by
    simpa [jsTrim, trimRight] using
      length_dropWhile_le' isJsWhitespace (trimLeft s).reverse
  exact Nat.le_trans h1 (length_dropWhile_le' isJsWhitespace s)

/-- Every element of the post-state of repository `update` is either an
untouched old record or the spread-merge of an old record. -/
theorem mem_update_snd (todos : List Todo) (id : List Char)
    (data : UpdateTodoDto) (now : Nat) (x : Todo)
    (hx : x ∈ (TodoRepository.update todos id data now).2) :
    x ∈ todos ∨
    ∃ t ∈ todos, x =
      { t with
        title := data.title.getD t.title,
        completed := data.completed.getD t.completed,
        updatedAt := now } := by
  induction todos with
  | nil => cases hx
  | cons t ts ih =>
    by_cases h : (t.id == id) = true
    · simp only [TodoRepository.update, h, if_true] at hx
      rcases List.mem_cons.mp hx with h1 | h1
      · exact Or.inr ⟨t, List.mem_cons_self t ts, h1⟩
      · exact Or.inl (List.mem_cons_of_mem t h1)
    · simp only [TodoRepository.update, h, if_false] at hx
      rcases List.mem_cons.mp hx with h1 | h1
      · exact Or.inl (h1 ▸ List.mem_cons_self t ts)
      · rcases ih h1 with h2 | ⟨u, hu, he⟩
        · exact Or.inl (List.mem_cons_of_mem t h2)
        · exact Or.inr ⟨u, List.mem_cons_of_mem t hu, he⟩

/-- Every element of the post-state of repository `delete` was already
in the store. -/
theorem mem_del_snd (todos : List Todo) (id : List Char) (x : Todo)
    (hx : x ∈ (TodoRepository.del todos id).2) : x ∈ todos := by
  induction todos with
  | nil => cases hx
  | cons t ts ih =>
    by_cases h : (t.id == id) = true
    · simp only [TodoRepository.del, h, if_true] at hx
      exact List.mem_cons_of_mem t hx
    · simp only [TodoRepository.del, h, if_false] at hx
      rcases List.mem_cons.mp hx with h1 | h1
      · exact h1 ▸ List.mem_cons_self t ts
      · exact List.mem_cons_of_mem t (ih h1)

/-- The post-state of `createTodo` is the old store, or the old store
with one appended record whose title is the trimmed, non-blank input
title. -/
theorem createTodo_snd_cases (todos : List Todo) (newId : List Char)
    (now : Nat) (data : CreateTodoDto) :
    (TodoService.createTodo todos newId now data).2 = todos ∨
    (jsTrim data.title ≠ [] ∧
      (TodoService.createTodo todos newId now data).2 =
        todos ++ [{ id := newId, title := jsTrim data.title,
                    completed := false, createdAt := now,
                    updatedAt := now }]) := by
  by_cases h : ((jsTrim data.title).length == 0) = true
  · left
    simp [TodoService.createTodo, h]
  · right
    have hne : jsTrim data.title ≠ [] := by
      intro he
      exact h (by simp [he])
    exact ⟨hne, by simp [TodoService.createTodo, h, TodoRepository.create]⟩

/-- The post-state of `updateTodo` is the old store, or the post-state
of a repository `update` whose dto carries a trimmed non-blank title
(when one is present at all). -/
theorem updateTodo_snd_cases (todos : List Todo) (id : List Char)
    (data : UpdateTodoDto) (now : Nat) :
    (TodoService.updateTodo todos id data now).2 = todos ∨
    ((∀ s, data.title = some s → jsTrim s ≠ []) ∧
      (TodoService.updateTodo todos id data now).2 =
        (TodoRepository.update todos id
          { title := data.title.map jsTrim, completed := data.completed }
          now).2) := by
  unfold TodoService.updateTodo
  cases hf : TodoRepository.findById todos id with
  | none => exact Or.inl rfl
  | some w =>
    by_cases hc : (match data.title with
        | some t => (jsTrim t).length == 0
        | none => false) = true
    · left
      simp [hc]
    · right
      constructor
      · intro s hs he
        apply hc
        simp [hs, he]
      · simp only [hc, Bool.false_eq_true, if_false]
        cases hr : (TodoRepository.update todos id
            { title := data.title.map jsTrim,
              completed := data.completed } now).1 <;>
          simp [hr]

/-- The post-state of `deleteTodo` is the post-state of the repository
`delete`. -/
theorem deleteTodo_snd (todos : List Todo) (id : List Char) :
    (TodoService.deleteTodo todos id).2 =
      (TodoRepository.del todos id).2 := by
  unfold TodoService.deleteTodo
  cases hr : (TodoRepository.del todos id).1 <;> simp [hr]

/-- C6: every store reachable from the empty store through the service
operations contains only records whose title does not trim to the
empty string — no stored title is empty or whitespace-only. -/
theorem reachable_titles_nonblank (s : List Todo) (h : Reachable s) :
    TitlesNonBlank s := by
  induction h with
  | empty => intro t ht; cases ht
  | create s newId now data hs ih =>
    rcases createTodo_snd_cases s newId now data with he | ⟨hne, he⟩
    · rw [he]; exact ih
    · rw [he]
      intro t ht
      rcases List.mem_append.mp ht with h1 | h1
      · exact ih t h1
      · have : t = { id := newId, title := jsTrim data.title,
                     completed := false, createdAt := now,
                     updatedAt := now } := by simpa using h1
        rw [this]
        simpa [jsTrim_idem] using hne
  | update s id data now hs ih =>
    rcases updateTodo_snd_cases s id data now with he | ⟨hval, he⟩
    · rw [he]; exact ih
    · rw [he]
      intro t ht
      rcases mem_update_snd s id _ now t ht with h1 | ⟨u, hu, hu2⟩
      · exact ih t h1
      · rw [hu2]
        cases hd : data.title with
        | none => simpa [hd] using ih u hu
        | some w =>
          have : jsTrim w ≠ [] := hval w hd
          simpa [hd, jsTrim_idem] using this
  | del s id hs ih =>
    rw [deleteTodo_snd]
    intro t ht
    exact ih t (mem_del_snd s id t ht)

/-- C6 witness: a store reached by one valid create satisfies the
invariant. -/
theorem reachable_titles_nonblank_witness :
    TitlesNonBlank (TodoService.createTodo [] ['a'] 0 ⟨['h', 'i']⟩).2 :=
  reachable_titles_nonblank _
    (Reachable.create [] ['a'] 0 ⟨['h', 'i']⟩ Reachable.empty)

/-- C7: every store reachable from the empty store through the routes
(whose zod schemas bound a provided title to 1–200 characters before
the service runs) contains only records whose title has at most 200
characters; in particular `createTodo` and `updateTodo` preserve the
bound. -/
theorem schema_reachable_titles_le_200 (s : List Todo)
    (h : SchemaReachable s) : TitlesAtMost200 s := by
  induction h with
  | empty => intro t ht; cases ht
  | create s newId now data hv hs ih =>
    rcases createTodo_snd_cases s newId now data with he | ⟨hne, he⟩
    · rw [he]; exact ih
    · rw [he]
      intro t ht
      rcases List.mem_append.mp ht with h1 | h1
      · exact ih t h1
      · have heq : t = { id := newId, title := jsTrim data.title,
                         completed := false, createdAt := now,
                         updatedAt := now } := by simpa using h1
        rw [heq]
        exact Nat.le_trans (jsTrim_length_le data.title) hv.2
  | update s id data now hv hs ih =>
    rcases updateTodo_snd_cases s id data now with he | ⟨hval, he⟩
    · rw [he]; exact ih
    · rw [he]
      intro t ht
      rcases mem_update_snd s id _ now t ht with h1 | ⟨u, hu, hu2⟩
      · exact ih t h1
      · rw [hu2]
        cases hd : data.title with
        | none => simpa [hd] using ih u hu
        | some w =>
          have hw : w.length ≤ 200 := (hv w hd).2
          simpa [hd] using Nat.le_trans (jsTrim_length_le w) hw
  | del s id hs ih =>
    rw [deleteTodo_snd]
    intro t ht
    exact ih t (mem_del_snd s id t ht)

/-- C7 witness: a store reached by one schema-valid create satisfies
the bound. -/
theorem schema_reachable_titles_le_200_witness :
    TitlesAtMost200 (TodoService.createTodo [] ['a'] 0 ⟨['h', 'i']⟩).2 :=
  schema_reachable_titles_le_200 _
    (SchemaReachable.create [] ['a'] 0 ⟨['h', 'i']⟩
      ⟨by decide, by decide⟩ SchemaReachable.empty)

/-- C8 round-trip: creating a todo with a title that trims non-empty
and reading back the returned id yields a record with that id and the
trimmed title (the id generator's uniqueness guarantee appears as the
freshness hypothesis on `newId`). -/
theorem create_then_get (todos : List Todo) (newId : List Char)
    (now : Nat) (data : CreateTodoDto) (h : jsTrim data.title ≠ [])
    (hfresh : ∀ t ∈ todos, t.id ≠ newId) :
    ∃ t : Todo,
      TodoService.createTodo todos newId now data =
        (Except.ok t, todos ++ [t]) ∧
      t.id = newId ∧
      t.title = jsTrim data.title ∧
      TodoService.getTodoById (todos ++ [t]) t.id = Except.ok t := by
  refine ⟨{ id := newId, title := jsTrim data.title, completed := false,
            createdAt := now, updatedAt := now }, ?_, rfl, rfl, ?_⟩
  · have hlen : ((jsTrim data.title).length == 0) = false := by
      simp [List.length_eq_zero, h]
    simp [TodoService.createTodo, TodoRepository.create, hlen]
  · have hfind := findById_append_first todos []
      { id := newId, title := jsTrim data.title, completed := false,
        createdAt := now, updatedAt := now } newId hfresh rfl
    simp [TodoService.getTodoById, hfind]

/-- C8 witness. -/
theorem create_then_get_witness :
    jsTrim (['z'] : List Char) ≠ [] ∧
    (∀ t ∈ [todoA], t.id ≠ ['n']) ∧
    (∃ t : Todo,
      TodoService.createTodo [todoA] ['n'] 9 ⟨['z']⟩ =
        (Except.ok t, [todoA] ++ [t]) ∧
      t.id = ['n'] ∧
      t.title = jsTrim ['z'] ∧
      TodoService.getTodoById ([todoA] ++ [t]) t.id = Except.ok t) :=
  ⟨by decide, by decide,
   create_then_get [todoA] ['n'] 9 ⟨['z']⟩ (by decide) (by decide)⟩

/-- C9 counterexample: in the reference-level model, `findById` hands
out the stored reference itself; overwriting the title through that
reference changes the repository's stored collection, so reads are not
defensive copies. -/
theorem reads_not_defensive_copies :
    RepoMem.findByIdRef repoMem0 ['i'] = some 0 ∧
    RepoMem.stored (RepoMem.setTitle repoMem0 0 ['z']) ≠
      RepoMem.stored repoMem0 := by
  decide

/-- C9 amended: `findAll` copies only the array (the fresh array holds
the stored references themselves) and `findById` returns a stored
reference, so mutating a record obtained from either read changes the
repository's stored collection: any reference produced by `findById`
is one of the references `findAll` also hands out, and writing a
different title through it changes the stored collection. -/
theorem findById_returns_stored_reference (r : RepoMem) (id : List Char)
    (a : Addr) (o : Todo) (s : List Char)
    (hfind : RepoMem.findByIdRef r id = some a)
    (hget : r.heap[a]? = some o) (hne : o.title ≠ s) :
    a ∈ RepoMem.findAllRefs r ∧
    RepoMem.stored (RepoMem.setTitle r a s) ≠ RepoMem.stored r := by
  have hmem : a ∈ r.refs := List.mem_of_find?_eq_some hfind
  refine ⟨hmem, ?_⟩
  intro heq
  have halen : a < r.heap.length := by
    rcases List.getElem?_eq_some.mp hget with ⟨hlt, _⟩
    exact hlt
  have hset : RepoMem.setTitle r a s =
      { r with heap := r.heap.set a { o with title := s } } := by
    simp [RepoMem.setTitle, hget]
  rw [hset] at heq
  simp only [RepoMem.stored] at heq
  have hpt := List.map_inj_left.mp heq a hmem
  have hfa : (r.heap.set a { o with title := s })[a]? =
      some { o with title := s } :=
    List.getElem?_set_self halen
  rw [hfa, hget] at hpt
  have hrec : ({ o with title := s } : Todo) = o := Option.some.inj hpt
  exact hne (congrArg Todo.title hrec).symm

/-- C9 amended witness. -/
theorem findById_returns_stored_reference_witness :
    RepoMem.findByIdRef repoMem0 ['i'] = some 0 ∧
    repoMem0.heap[0]? = some { id := ['i'], title := ['t'],
                               completed := false, createdAt := 0,
                               updatedAt := 0 } ∧
    (0 ∈ RepoMem.findAllRefs repoMem0 ∧
      RepoMem.stored (RepoMem.setTitle repoMem0 0 ['z']) ≠
        RepoMem.stored repoMem0) :=
  ⟨by decide, by decide,
   findById_returns_stored_reference repoMem0 ['i'] 0
     { id := ['i'], title := ['t'], completed := false, createdAt := 0,
       updatedAt := 0 } ['z'] (by decide) (by decide) (by decide)⟩

/-- A todo returned by `setCompletedTrue` has `completed = true`. -/
theorem setCompletedTrue_fst_completed (todos : List IntTodo) (tid : Int)
    (t : IntTodo) (h : (setCompletedTrue todos tid).1 = some t) :
    t.completed = true := by
  induction todos with
  | nil => cases h
  | cons a l ih =>
    by_cases ha : (a.id == tid) = true
    · simp only [setCompletedTrue, ha, if_true] at h
      cases h
      rfl
    · simp only [setCompletedTrue, ha, if_false] at h
      exact ih h

/-- `setCompletedTrue` rewrites exactly the first matching element. -/
theorem setCompletedTrue_append_first (l₁ l₂ : List IntTodo)
    (old : IntTodo) (tid : Int) (hfst : ∀ t ∈ l₁, t.id ≠ tid)
    (hid : old.id = tid) :
    setCompletedTrue (l₁ ++ old :: l₂) tid =
      (some { old with completed := true },
       l₁ ++ { old with completed := true } :: l₂) := by
  induction l₁ with
  | nil =>
    simp [setCompletedTrue, hid]
  | cons a l ih =>
    have ha : (a.id == tid) = false :=
      beq_eq_false_iff_ne.mpr (hfst a (List.mem_cons_self a l))
    have ih' := ih fun t ht => hfst t (List.mem_cons_of_mem a ht)
    simp [setCompletedTrue, ha, ih']

/-- C10: in the integer-id route variant, a `PUT /todos/:id` whose id
parses to the id of a stored todo (its first occurrence) sets exactly
that todo's `completed` field to `true` and returns it: the request
body is ignored entirely (the handler result is the same for any two
bodies), the title and id are unchanged, every other record is
untouched, and any todo this handler ever returns has
`completed = true`, so the endpoint can never set it back to
`false`. -/
theorem putTodo_sets_completed (l₁ l₂ : List IntTodo) (old : IntTodo)
    (tid : Int) (body₁ body₂ : PutBody)
    (hfst : ∀ t ∈ l₁, t.id ≠ tid) (hid : old.id = tid) :
    putTodoHandler (l₁ ++ old :: l₂) (some tid) body₁ =
      (PutResult.ok { old with completed := true },
       l₁ ++ { old with completed := true } :: l₂) ∧
    putTodoHandler (l₁ ++ old :: l₂) (some tid) body₁ =
      putTodoHandler (l₁ ++ old :: l₂) (some tid) body₂ ∧
    ({ old with completed := true } : IntTodo).title = old.title ∧
    ({ old with completed := true } : IntTodo).id = old.id ∧
    (∀ todos p b t ts,
      putTodoHandler todos p b = (PutResult.ok t, ts) →
      t.completed = true) := by
  have hset := setCompletedTrue_append_first l₁ l₂ old tid hfst hid
  refine ⟨by simp [putTodoHandler, hset], rfl, rfl, rfl, ?_⟩
  intro todos p b t ts hp
  cases p with
  | none => cases hp
  | some tid' =>
    rcases e : setCompletedTrue todos tid' with ⟨fst, snd⟩
    cases fst with
    | none =>
      simp only [putTodoHandler, e] at hp
      cases hp
    | some u =>
      simp only [putTodoHandler, e] at hp
      have h1 : PutResult.ok u = PutResult.ok t := congrArg Prod.fst hp
      have ht : u = t := by injection h1
      exact ht ▸ setCompletedTrue_fst_completed todos tid' u (by rw [e])

/-- C10 witness: with a body asking for a different title and
`completed: false`, the handler still only flips `completed` to `true`,
and the result equals the one for an empty body. -/
theorem putTodo_sets_completed_witness :
    putTodoHandler [intTodoB, intTodoA] (some 1) ⟨some ['q'], some false⟩ =
      (PutResult.ok { intTodoA with completed := true },
       [intTodoB, { intTodoA with completed := true }]) ∧
    putTodoHandler [intTodoB, intTodoA] (some 1) ⟨some ['q'], some false⟩ =
      putTodoHandler [intTodoB, intTodoA] (some 1) ⟨none, none⟩ := by
  have h := putTodo_sets_completed [intTodoB] [] intTodoA 1
    ⟨some ['q'], some false⟩ ⟨none, none⟩ (by decide) (by decide)
  exact ⟨h.1, h.2.1⟩
